import Mathlib

/-!
Shallow embedding of the harmonium sheet-to-truth pipeline
(`src/scripts/sheet_to_truth.py`): the Event Lowerer, Metadata Extractor,
Segmenter and Truth Synthesizer, together with proofs of the specification
claims about them.

Python floats (note offsets, durations, tempo numbers) are modelled as
rationals `ℚ`; the pipeline only adds, compares and sorts them, so the
embedding is exact on every value the parser can hand over.  Barline types
are the strings music21 exposes (`"final"`, `"double"`, ...).  MIDI pitches,
velocities and channels are naturals.
-/

namespace Harmonium

/-- A note-bearing element as seen by `score.flat.notes`: either a single
note (one MIDI pitch) or a chord (a list of MIDI pitches, one per
constituent note), mirroring the `isinstance(el, chord.Chord)` branch of
`musicxml_to_truth`. -/
inductive NoteLike where
  | note (midi : Nat)
  | chord (midis : List Nat)
deriving DecidableEq, Repr

/-- One element of the flattened note stream: its offset and quarter-note
duration (Python floats, modelled as `ℚ`) and its pitch content. -/
structure NotesEl where
  offset : ℚ
  quarterLength : ℚ
  content : NoteLike
deriving DecidableEq, Repr

/-- A performance event as serialized into the events array of a Truth
Record: the tagged union `{"NoteOn": {note, velocity, channel}}` or
`{"NoteOff": {note, channel}}`. -/
inductive Event where
  | noteOn (note velocity channel : Nat)
  | noteOff (note channel : Nat)
deriving DecidableEq, Repr

/-- An events-array entry: the pair `(timestamp, event)` appended by
`musicxml_to_truth`. -/
abbrev TimedEvent := ℚ × Event

/-- One measure as produced by the external score parser: its note-bearing
elements, the tempo-mark numbers and key-signature tonic pitch classes it
carries (in flattened order; music21 guarantees a pitch class lies in
0..11, hence `Fin 12`), and the type string of its right barline when one
is attached. -/
structure Measure where
  notes : List NotesEl
  tempos : List ℚ
  keyTonics : List (Fin 12)
  rightBarline : Option String
deriving DecidableEq, Repr

/-- A composition accumulated by the Segmenter (`stream.Score()` that
measures get appended to), i.e. an ordered list of measures. -/
abbrev Composition := List Measure

/-- The flattened note stream of a composition (`score.flat.notes`):
measures in order, each contributing its elements in order. -/
def flatNotes (c : Composition) : List NotesEl :=
  (c.map Measure.notes).flatten

/-- The flattened tempo marks of a composition
(`score.flat.getElementsByClass(tempo.MetronomeMark)`). -/
def flatTempos (c : Composition) : List ℚ :=
  (c.map Measure.tempos).flatten

/-- The flattened key signatures of a composition, each reduced to its
tonic pitch class (`score.flat.getElementsByClass(key.KeySignature)`). -/
def flatKeys (c : Composition) : List (Fin 12) :=
  (c.map Measure.keyTonics).flatten

/-- The `notes_to_play` list of `musicxml_to_truth`: the chord's pitches,
or the singleton of the note's pitch. -/
def notesToPlay (el : NotesEl) : List Nat :=
  match el.content with
  | .chord ps => ps
  | .note p => [p]

/-- The events appended for one element of `score.flat.notes`: for each
pitch `n` of the element, a NoteOn at the element's offset with velocity
90 and channel 0, immediately followed by a NoteOff at offset plus
duration with channel 0, in the order of the inner `for n in
notes_to_play` loop. -/
def elemEvents (el : NotesEl) : List TimedEvent :=
  (notesToPlay el).flatMap fun n =>
    [(el.offset, Event.noteOn n 90 0),
     (el.offset + el.quarterLength, Event.noteOff n 0)]

/-- The full unsorted event list of `musicxml_to_truth`: elements of the
flattened note stream processed in order, each appending its events. -/
def rawEvents (c : Composition) : List TimedEvent :=
  (flatNotes c).flatMap elemEvents

/-- The `events.sort(key=lambda x: x[0])` step: a stable sort of the event
list by timestamp only (Python's list sort is stable; `List.mergeSort` is
its stable counterpart here). -/
def sortEvents (evs : List TimedEvent) : List TimedEvent :=
  evs.mergeSort fun a b => decide (a.1 ≤ b.1)

/-- The fixed-shape MusicalParams record built by `musicxml_to_truth`
(field per key of the Python `params` dict). -/
structure MusicalParams where
  bpm : ℚ
  master_volume : ℚ
  enable_rhythm : Bool
  enable_harmony : Bool
  enable_melody : Bool
  enable_voicing : Bool
  rhythm_mode : String
  rhythm_steps : Nat
  rhythm_pulses : Nat
  rhythm_rotation : Nat
  rhythm_density : ℚ
  rhythm_tension : ℚ
  rhythm_secondary_steps : Nat
  rhythm_secondary_pulses : Nat
  rhythm_secondary_rotation : Nat
  fixed_kick : Bool
  harmony_mode : String
  harmony_strategy : String
  harmony_tension : ℚ
  harmony_valence : ℚ
  harmony_measures_per_chord : Nat
  key_root : Nat
  melody_smoothness : ℚ
  voicing_density : ℚ
  voicing_tension : ℚ
  melody_octave : Nat
  gain_lead : ℚ
  gain_bass : ℚ
  gain_snare : ℚ
  gain_hat : ℚ
  vel_base_bass : Nat
  vel_base_snare : Nat
  channel_routing : List Int
  muted_channels : List Bool
  record_wav : Bool
  record_midi : Bool
  record_musicxml : Bool
  record_truth : Bool
deriving DecidableEq, Repr

/-- The params literal of `musicxml_to_truth`: every field is the constant
from the Python dict except `bpm` and `key_root`, which are passed in. -/
def mkParams (bpm : ℚ) (key_root : Nat) : MusicalParams where
  bpm := bpm
  master_volume := 1
  enable_rhythm := true
  enable_harmony := true
  enable_melody := true
  enable_voicing := false
  rhythm_mode := "Euclidean"
  rhythm_steps := 16
  rhythm_pulses := 4
  rhythm_rotation := 0
  rhythm_density := 1/2
  rhythm_tension := 3/10
  rhythm_secondary_steps := 12
  rhythm_secondary_pulses := 3
  rhythm_secondary_rotation := 0
  fixed_kick := false
  harmony_mode := "Driver"
  harmony_strategy := "Auto"
  harmony_tension := 3/10
  harmony_valence := 3/10
  harmony_measures_per_chord := 2
  key_root := key_root
  melody_smoothness := 7/10
  voicing_density := 1/2
  voicing_tension := 3/10
  melody_octave := 4
  gain_lead := 1
  gain_bass := 6/10
  gain_snare := 1/2
  gain_hat := 4/10
  vel_base_bass := 85
  vel_base_snare := 70
  channel_routing := List.replicate 16 (-1)
  muted_channels := List.replicate 16 false
  record_wav := false
  record_midi := false
  record_musicxml := false
  record_truth := false

/-- The Truth Record: `{version, git_sha, params, events, sample_rate}`. -/
structure Truth where
  version : String
  git_sha : String
  params : MusicalParams
  events : List TimedEvent
  sample_rate : Nat
deriving DecidableEq, Repr

/-- The Python default of the `bpm` parameter of `musicxml_to_truth`. -/
def DEFAULT_BPM : ℚ := 120

/-- The Python default of the `sample_rate` parameter of
`musicxml_to_truth`. -/
def DEFAULT_SAMPLE_RATE : Nat := 44100

/-- `musicxml_to_truth(score, bpm, sample_rate)`: override `bpm` with the
first flattened tempo mark when one exists, take `key_root` from the first
flattened key signature's tonic pitch class (0 when none), lower the notes
to events, stable-sort them by timestamp, and assemble the Truth Record
with the fixed version and git_sha strings. -/
def musicxml_to_truth (score : Composition) (bpm : ℚ) (sample_rate : Nat) :
    Truth :=
  let bpm := match flatTempos score with
    | t :: _ => t
    | [] => bpm
  let key_root : Nat := match flatKeys score with
    | k :: _ => (k : Nat)
    | [] => 0
  { version := "0.1.0-omr"
    git_sha := "unknown"
    params := mkParams bpm key_root
    events := sortEvents (rawEvents score)
    sample_rate := sample_rate }

/-- The string `f"carol_{count:03d}"` without its prefix: the decimal
rendering of `count` left-padded with zeros to a minimum width of 3. -/
def zeroPad3 (n : Nat) : String :=
  let s := toString n
  if s.length < 3 then String.mk (List.replicate (3 - s.length) '0') ++ s
  else s

/-- The basename `f"carol_{count:03d}"` used by `save_carol`. -/
def carolName (count : Nat) : String :=
  "carol_" ++ zeroPad3 count

/-- What one `save_carol` call writes: the two output paths, the
re-serialized composition (content of the `.musicxml` file) and the Truth
Record (content of the `.truth.json` file). -/
structure SavedCarol where
  xml_path : String
  truth_path : String
  xml_score : Composition
  truth : Truth
deriving DecidableEq, Repr

/-- `save_carol(score, count, output_dir)`: derive both paths from the
zero-padded count and synthesize the truth via `musicxml_to_truth(score)`,
i.e. with the Python defaults for `bpm` and `sample_rate`. -/
def save_carol (score : Composition) (count : Nat) (output_dir : String) :
    SavedCarol where
  xml_path := output_dir ++ "/" ++ carolName count ++ ".musicxml"
  truth_path := output_dir ++ "/" ++ carolName count ++ ".truth.json"
  xml_score := score
  truth := musicxml_to_truth score DEFAULT_BPM DEFAULT_SAMPLE_RATE

/-- The `if m.rightBarline and m.rightBarline.type in ['final', 'double']`
test of `split_and_convert`. -/
def isFinalBarline (m : Measure) : Bool :=
  match m.rightBarline with
  | some t => t == "final" || t == "double"
  | none => false

/-- The Segmenter's loop state: the carols emitted so far (each paired
with the count it was saved under), the running `carol_count`, and the
open accumulator `current_carol`. -/
structure SegState where
  carols : List (Nat × Composition)
  carol_count : Nat
  current_carol : Composition
deriving DecidableEq, Repr

/-- One iteration of the inner measure loop of `split_and_convert`:
append the measure to the open carol; if its right barline is final or
double, emit the carol under the current count, bump the count and start
a fresh accumulator. -/
def stepMeasure (st : SegState) (m : Measure) : SegState :=
  let cur := st.current_carol ++ [m]
  if isFinalBarline m then
    { carols := st.carols ++ [(st.carol_count, cur)]
      carol_count := st.carol_count + 1
      current_carol := [] }
  else
    { carols := st.carols
      carol_count := st.carol_count
      current_carol := cur }

/-- A parsed source score as `split_and_convert` sees it: its parts (each
an ordered list of measures) and, for a part-less score, its top-level
measures. -/
structure SourceScore where
  parts : List (List Measure)
  topMeasures : List Measure
deriving DecidableEq, Repr

/-- `parts = score.parts if len(score.parts) > 0 else [score]`. -/
def effectiveParts (s : SourceScore) : List (List Measure) :=
  if s.parts.length > 0 then s.parts else [s.topMeasures]

/-- Fold one part's measures through the Segmenter. -/
def stepPart (st : SegState) (p : List Measure) : SegState :=
  p.foldl stepMeasure st

/-- Fold one source score through the Segmenter: each part whole, in part
order (`for p in parts: for m in p.getElementsByClass(stream.Measure)`). -/
def stepScore (st : SegState) (s : SourceScore) : SegState :=
  (effectiveParts s).foldl stepPart st

/-- The Segmenter's initial state: no carols emitted, `carol_count = 1`,
an empty open accumulator. -/
def initSegState : SegState where
  carols := []
  carol_count := 1
  current_carol := []

/-- The Segmenter state after consuming the whole score stream. -/
def finalSegState (scores : List SourceScore) : SegState :=
  scores.foldl stepScore initSegState

/-- The carols `split_and_convert` hands to `save_carol`, each with its
count: the carols emitted at final/double barlines, then the residual
accumulator if `len(current_carol.flat.notes) > 0`. -/
def segmentCarols (scores : List SourceScore) : List (Nat × Composition) :=
  let st := finalSegState scores
  if (flatNotes st.current_carol).length > 0 then
    st.carols ++ [(st.carol_count, st.current_carol)]
  else
    st.carols

/-- `split_and_convert`: segment the parsed scores and save every emitted
carol under its count. -/
def split_and_convert (scores : List SourceScore) (output_dir : String) :
    List SavedCarol :=
  (segmentCarols scores).map fun kc => save_carol kc.2 kc.1 output_dir

/-! ### Helper predicates and lemmas -/

/-- Whether an event is a NoteOn. -/
def isNoteOn : Event → Bool
  | .noteOn _ _ _ => true
  | .noteOff _ _ => false

/-- Whether an event is a NoteOff. -/
def isNoteOff : Event → Bool
  | .noteOn _ _ _ => false
  | .noteOff _ _ => true

lemma pairEvs_countP_on (o d : ℚ) (ps : List Nat) :
    ((ps.flatMap fun n =>
        [((o, Event.noteOn n 90 0) : TimedEvent), (o + d, Event.noteOff n 0)]).countP
      fun te => isNoteOn te.2) = ps.length := by
  induction ps with
  | nil => rfl
  | cons n ps ih =>
      rw [List.flatMap_cons, List.countP_append, ih, List.length_cons]
      have h2 : (([((o, Event.noteOn n 90 0) : TimedEvent),
          (o + d, Event.noteOff n 0)]).countP fun te => isNoteOn te.2) = 1 := rfl
      rw [h2]; omega

lemma pairEvs_countP_off (o d : ℚ) (ps : List Nat) :
    ((ps.flatMap fun n =>
        [((o, Event.noteOn n 90 0) : TimedEvent), (o + d, Event.noteOff n 0)]).countP
      fun te => isNoteOff te.2) = ps.length := by
  induction ps with
  | nil => rfl
  | cons n ps ih =>
      rw [List.flatMap_cons, List.countP_append, ih, List.length_cons]
      have h2 : (([((o, Event.noteOn n 90 0) : TimedEvent),
          (o + d, Event.noteOff n 0)]).countP fun te => isNoteOff te.2) = 1 := rfl
      rw [h2]; omega

lemma count_pair (x a b : TimedEvent) :
    List.count x [a, b] = (if a = x then 1 else 0) + (if b = x then 1 else 0) := by
  rw [List.count_cons, List.count_cons, List.count_nil]
  simp only [beq_iff_eq]
  split_ifs <;> omega

lemma pairEvs_count_on (o d : ℚ) (ps : List Nat) (p : Nat) :
    ((ps.flatMap fun n =>
        [((o, Event.noteOn n 90 0) : TimedEvent), (o + d, Event.noteOff n 0)]).count
      ((o, Event.noteOn p 90 0) : TimedEvent)) = ps.count p := by
  induction ps with
  | nil => rfl
  | cons n ps ih =>
      rw [List.flatMap_cons, List.count_append, ih, count_pair, List.count_cons]
      by_cases h : n = p
      · subst h; simp; omega
      · simp [h, Prod.ext_iff]

lemma pairEvs_count_off (o d : ℚ) (ps : List Nat) (p : Nat) :
    ((ps.flatMap fun n =>
        [((o, Event.noteOn n 90 0) : TimedEvent), (o + d, Event.noteOff n 0)]).count
      ((o + d, Event.noteOff p 0) : TimedEvent)) = ps.count p := by
  induction ps with
  | nil => rfl
  | cons n ps ih =>
      rw [List.flatMap_cons, List.count_append, ih, count_pair, List.count_cons]
      by_cases h : n = p
      · subst h; simp; omega
      · simp [h, Prod.ext_iff]

/-! ### C2: per-element NoteOn/NoteOff emission -/

/-- C2: a note-bearing element with `k` constituent pitches at onset `o`
and duration `d` makes the Event Lowerer emit exactly `k` NoteOn events,
each at timestamp `o` with velocity 90 and channel 0, and exactly `k`
NoteOff events, each at timestamp `o + d` with channel 0; for each pitch
the NoteOn and NoteOff multiplicities equal the pitch's multiplicity in
the element, and every emitted event is of one of those two shapes (so
all pairs of the element share the same two timestamps). -/
theorem elemEvents_pairing (el : NotesEl) :
    ((elemEvents el).countP fun te => isNoteOn te.2) = (notesToPlay el).length ∧
    ((elemEvents el).countP fun te => isNoteOff te.2) = (notesToPlay el).length ∧
    (∀ p : Nat,
      (elemEvents el).count ((el.offset, Event.noteOn p 90 0) : TimedEvent) =
        (notesToPlay el).count p ∧
      (elemEvents el).count
          ((el.offset + el.quarterLength, Event.noteOff p 0) : TimedEvent) =
        (notesToPlay el).count p) ∧
    (∀ te ∈ elemEvents el,
      (∃ p, te = (el.offset, Event.noteOn p 90 0)) ∨
      ∃ p, te = (el.offset + el.quarterLength, Event.noteOff p 0)) := by
  refine ⟨pairEvs_countP_on _ _ _, pairEvs_countP_off _ _ _,
    fun p => ⟨pairEvs_count_on _ _ _ _, pairEvs_count_off _ _ _ _⟩, ?_⟩
  intro te hte
  unfold elemEvents at hte
  rw [List.mem_flatMap] at hte
  obtain ⟨n, -, hn⟩ := hte
  simp only [List.mem_cons, List.mem_singleton] at hn
  rcases hn with h | h | h
  · exact Or.inl ⟨n, h⟩
  · exact Or.inr ⟨n, h⟩
  · cases h

/-- Witness for C2 at a concrete two-pitch chord. -/
theorem elemEvents_pairing_witness :
    ((elemEvents ⟨0, 1, .chord [60, 64]⟩).countP fun te => isNoteOn te.2) = 2 ∧
    (elemEvents ⟨0, 1, .chord [60, 64]⟩).count
        (((0 : ℚ), Event.noteOn 60 90 0) : TimedEvent) = 1 ∧
    (elemEvents ⟨0, 1, .chord [60, 64]⟩).count
        (((0 : ℚ) + 1, Event.noteOff 64 0) : TimedEvent) = 1 := by
  have h := elemEvents_pairing ⟨0, 1, .chord [60, 64]⟩
  exact ⟨h.1, (h.2.2.1 60).1.trans (by decide), (h.2.2.1 64).2.trans (by decide)⟩

/-! ### C6: metadata extraction (bpm and key_root) -/

/-- C6: the Truth Synthesizer sets `bpm` to the number of the first tempo
mark of the flattened Composition (later marks ignored), falling back to
the caller-supplied value when no tempo mark is present — and to 120 on
the pipeline's `save_carol` path; `key_root` is the tonic pitch class of
the first key signature, 0 when none is present, and always lies in
0..11. -/
theorem metadata_extraction (score : Composition) (bpm0 : ℚ) (sr : Nat) :
    (∀ t ts, flatTempos score = t :: ts →
      (musicxml_to_truth score bpm0 sr).params.bpm = t) ∧
    (flatTempos score = [] →
      (musicxml_to_truth score bpm0 sr).params.bpm = bpm0) ∧
    (∀ k ks, flatKeys score = k :: ks →
      (musicxml_to_truth score bpm0 sr).params.key_root = (k : Nat)) ∧
    (flatKeys score = [] →
      (musicxml_to_truth score bpm0 sr).params.key_root = 0) ∧
    (musicxml_to_truth score bpm0 sr).params.key_root < 12 ∧
    (flatTempos score = [] → ∀ n dir,
      (save_carol score n dir).truth.params.bpm = 120) := by
  refine ⟨?_, ?_, ?_, ?_, ?_, ?_⟩
  · intro t ts h; simp [musicxml_to_truth, mkParams, h]
  · intro h; simp [musicxml_to_truth, mkParams, h]
  · intro k ks h; simp [musicxml_to_truth, mkParams, h]
  · intro h; simp [musicxml_to_truth, mkParams, h]
  · rcases hk : flatKeys score with - | ⟨k, ks⟩
    · simp [musicxml_to_truth, mkParams, hk]
    · simp only [musicxml_to_truth, mkParams, hk]
      exact k.isLt
  · intro h n dir
    simp [save_carol, musicxml_to_truth, mkParams, h, DEFAULT_BPM]

/-- Witness for C6: a score whose first tempo mark is 100 yields
`bpm = 100`; a markless score saved by the pipeline yields `bpm = 120`. -/
theorem metadata_extraction_witness :
    (musicxml_to_truth [⟨[], [100, 90], [⟨7, by decide⟩], none⟩] 120 44100).params.bpm
        = 100 ∧
    (musicxml_to_truth [⟨[], [100, 90], [⟨7, by decide⟩], none⟩] 120 44100).params.key_root
        = 7 ∧
    (save_carol [⟨[], [], [], none⟩] 1 "out").truth.params.bpm = 120 := by
  have h1 := metadata_extraction [⟨[], [100, 90], [⟨7, by decide⟩], none⟩] 120 44100
  have h2 := metadata_extraction [⟨[], [], [], none⟩] 120 44100
  exact ⟨h1.1 100 [90] rfl, h1.2.2.1 ⟨7, by decide⟩ [] rfl, h2.2.2.2.2.2 rfl 1 "out"⟩

/-! ### C7: fixed schema strings and constant parameters -/

/-- C7: every Truth Record carries version `"0.1.0-omr"` and git_sha
`"unknown"`; every params field other than `bpm` and `key_root` is the
same fixed constant whatever the Composition, and `channel_routing` and
`muted_channels` always have length exactly 16. -/
theorem truth_record_constants (score : Composition) (bpm0 : ℚ) (sr : Nat) :
    (musicxml_to_truth score bpm0 sr).version = "0.1.0-omr" ∧
    (musicxml_to_truth score bpm0 sr).git_sha = "unknown" ∧
    (musicxml_to_truth score bpm0 sr).params.master_volume = 1 ∧
    (musicxml_to_truth score bpm0 sr).params.enable_rhythm = true ∧
    (musicxml_to_truth score bpm0 sr).params.enable_harmony = true ∧
    (musicxml_to_truth score bpm0 sr).params.enable_melody = true ∧
    (musicxml_to_truth score bpm0 sr).params.enable_voicing = false ∧
    (musicxml_to_truth score bpm0 sr).params.rhythm_mode = "Euclidean" ∧
    (musicxml_to_truth score bpm0 sr).params.rhythm_steps = 16 ∧
    (musicxml_to_truth score bpm0 sr).params.rhythm_pulses = 4 ∧
    (musicxml_to_truth score bpm0 sr).params.rhythm_rotation = 0 ∧
    (musicxml_to_truth score bpm0 sr).params.rhythm_density = 1/2 ∧
    (musicxml_to_truth score bpm0 sr).params.rhythm_tension = 3/10 ∧
    (musicxml_to_truth score bpm0 sr).params.rhythm_secondary_steps = 12 ∧
    (musicxml_to_truth score bpm0 sr).params.rhythm_secondary_pulses = 3 ∧
    (musicxml_to_truth score bpm0 sr).params.rhythm_secondary_rotation = 0 ∧
    (musicxml_to_truth score bpm0 sr).params.fixed_kick = false ∧
    (musicxml_to_truth score bpm0 sr).params.harmony_mode = "Driver" ∧
    (musicxml_to_truth score bpm0 sr).params.harmony_strategy = "Auto" ∧
    (musicxml_to_truth score bpm0 sr).params.harmony_tension = 3/10 ∧
    (musicxml_to_truth score bpm0 sr).params.harmony_valence = 3/10 ∧
    (musicxml_to_truth score bpm0 sr).params.harmony_measures_per_chord = 2 ∧
    (musicxml_to_truth score bpm0 sr).params.melody_smoothness = 7/10 ∧
    (musicxml_to_truth score bpm0 sr).params.voicing_density = 1/2 ∧
    (musicxml_to_truth score bpm0 sr).params.voicing_tension = 3/10 ∧
    (musicxml_to_truth score bpm0 sr).params.melody_octave = 4 ∧
    (musicxml_to_truth score bpm0 sr).params.gain_lead = 1 ∧
    (musicxml_to_truth score bpm0 sr).params.gain_bass = 6/10 ∧
    (musicxml_to_truth score bpm0 sr).params.gain_snare = 1/2 ∧
    (musicxml_to_truth score bpm0 sr).params.gain_hat = 4/10 ∧
    (musicxml_to_truth score bpm0 sr).params.vel_base_bass = 85 ∧
    (musicxml_to_truth score bpm0 sr).params.vel_base_snare = 70 ∧
    (musicxml_to_truth score bpm0 sr).params.channel_routing =
      List.replicate 16 (-1) ∧
    (musicxml_to_truth score bpm0 sr).params.muted_channels =
      List.replicate 16 false ∧
    (musicxml_to_truth score bpm0 sr).params.channel_routing.length = 16 ∧
    (musicxml_to_truth score bpm0 sr).params.muted_channels.length = 16 ∧
    (musicxml_to_truth score bpm0 sr).params.record_wav = false ∧
    (musicxml_to_truth score bpm0 sr).params.record_midi = false ∧
    (musicxml_to_truth score bpm0 sr).params.record_musicxml = false ∧
    (musicxml_to_truth score bpm0 sr).params.record_truth = false := by
  refine ⟨rfl, rfl, rfl, rfl, rfl, rfl, rfl, rfl, rfl, rfl, rfl, rfl, rfl,
    rfl, rfl, rfl, rfl, rfl, rfl, rfl, rfl, rfl, rfl, rfl, rfl, rfl, rfl,
    rfl, rfl, rfl, rfl, rfl, rfl, rfl, ?_, ?_, rfl, rfl, rfl, rfl⟩
  · simp [musicxml_to_truth, mkParams]
  · simp [musicxml_to_truth, mkParams]

/-! ### C10: the pipeline always uses the default sample rate and
fallback tempo -/

/-- C10: every Truth Record produced by `split_and_convert` has
`sample_rate = 44100`, and its `bpm` falls back to 120 whenever the
composition carries no tempo mark, because `save_carol` always invokes
`musicxml_to_truth` with the Python defaults. -/
theorem pipeline_default_args (scores : List SourceScore) (dir : String)
    (sc : SavedCarol) (h : sc ∈ split_and_convert scores dir) :
    sc.truth.sample_rate = 44100 ∧
    (flatTempos sc.xml_score = [] → sc.truth.params.bpm = 120) := by
  unfold split_and_convert at h
  rw [List.mem_map] at h
  obtain ⟨kc, -, rfl⟩ := h
  refine ⟨rfl, fun hT => ?_⟩
  have hT' : flatTempos kc.2 = [] := hT
  simp [save_carol, musicxml_to_truth, mkParams, hT', DEFAULT_BPM]

/-- Witness for C10 at a one-measure input score. -/
theorem pipeline_default_args_witness :
    (save_carol [Measure.mk [⟨0, 1, .note 60⟩] [] [] (some "final")] 1
        "out").truth.sample_rate = 44100 ∧
    (save_carol [Measure.mk [⟨0, 1, .note 60⟩] [] [] (some "final")] 1
        "out").truth.params.bpm = 120 := by
  have h := pipeline_default_args
    [SourceScore.mk [] [Measure.mk [⟨0, 1, .note 60⟩] [] [] (some "final")]] "out"
    (save_carol [Measure.mk [⟨0, 1, .note 60⟩] [] [] (some "final")] 1 "out")
    (by rw [show split_and_convert
        [SourceScore.mk [] [Measure.mk [⟨0, 1, .note 60⟩] [] [] (some "final")]]
        "out" =
        [save_carol [Measure.mk [⟨0, 1, .note 60⟩] [] [] (some "final")] 1 "out"]
      from rfl]; exact List.mem_singleton.mpr rfl)
  exact ⟨h.1, h.2 rfl⟩

/-! ### C4: finalization exactly at final/double right barlines -/

/-- C4: appending a Measure finalizes the open Composition if and only if
the Measure's right barline has kind `final` or `double`; on
finalization the emitted Composition is the accumulator with the Measure
appended, the count is bumped and the accumulator is reset, while any
other barline kind (or none) merely extends the accumulator. -/
theorem segmenter_finalize_iff (st : SegState) (m : Measure) :
    (isFinalBarline m = true →
      stepMeasure st m =
        { carols := st.carols ++ [(st.carol_count, st.current_carol ++ [m])]
          carol_count := st.carol_count + 1
          current_carol := [] }) ∧
    (isFinalBarline m = false →
      stepMeasure st m =
        { carols := st.carols
          carol_count := st.carol_count
          current_carol := st.current_carol ++ [m] }) ∧
    ((stepMeasure st m).carols ≠ st.carols ↔ isFinalBarline m = true) ∧
    (isFinalBarline m = true ↔
      m.rightBarline = some "final" ∨ m.rightBarline = some "double") := by
  refine ⟨fun h => by simp [stepMeasure, h], fun h => by simp [stepMeasure, h],
    ?_, ?_⟩
  · constructor
    · intro hne
      by_contra hfalse
      have hf : isFinalBarline m = false := by simpa using hfalse
      exact hne (by simp [stepMeasure, hf])
    · intro h
      simp only [stepMeasure, h, if_true]
      intro hc
      have := congrArg List.length hc
      simp at this
  · unfold isFinalBarline
    rcases m.rightBarline with - | t
    · simp
    · simp

/-- Witness for C4: a `final`-barline measure finalizes, a `regular` one
does not. -/
theorem segmenter_finalize_iff_witness :
    stepMeasure initSegState (Measure.mk [] [] [] (some "final")) =
      { carols := [(1, [Measure.mk [] [] [] (some "final")])]
        carol_count := 2
        current_carol := [] } ∧
    stepMeasure initSegState (Measure.mk [] [] [] (some "regular")) =
      { carols := []
        carol_count := 1
        current_carol := [Measure.mk [] [] [] (some "regular")] } := by
  refine ⟨?_, ?_⟩
  · have h := (segmenter_finalize_iff initSegState
      (Measure.mk [] [] [] (some "final"))).1 rfl
    simpa [initSegState] using h
  · have h := (segmenter_finalize_iff initSegState
      (Measure.mk [] [] [] (some "regular"))).2.1 rfl
    simpa [initSegState] using h

/-! ### C5: the residual composition is flushed only when it has notes -/

/-- C5: once the whole measure stream is consumed, the open accumulator
is emitted as a final Composition exactly when it still contains at
least one note; an empty residual is silently dropped. -/
theorem residual_flush (scores : List SourceScore) :
    (flatNotes (finalSegState scores).current_carol ≠ [] →
      segmentCarols scores =
        (finalSegState scores).carols ++
          [((finalSegState scores).carol_count,
            (finalSegState scores).current_carol)]) ∧
    (flatNotes (finalSegState scores).current_carol = [] →
      segmentCarols scores = (finalSegState scores).carols) := by
  unfold segmentCarols
  constructor
  · intro h
    rw [if_pos]
    exact List.length_pos.mpr h
  · intro h
    rw [if_neg]
    simp [h]

/-- Witness for C5: a stream ending with an unterminated noteful measure
flushes it; an empty stream flushes nothing. -/
theorem residual_flush_witness :
    segmentCarols [SourceScore.mk [] [Measure.mk [⟨0, 1, .note 60⟩] [] [] none]] =
      [(1, [Measure.mk [⟨0, 1, .note 60⟩] [] [] none])] ∧
    segmentCarols ([] : List SourceScore) = [] := by
  constructor
  · have h := (residual_flush
      [SourceScore.mk [] [Measure.mk [⟨0, 1, .note 60⟩] [] [] none]]).1
      (by decide)
    simpa [finalSegState, initSegState, stepScore, stepPart, stepMeasure,
      effectiveParts, isFinalBarline] using h
  · exact (residual_flush []).2 rfl

/-! ### C1 (corrected): empty compositions closed by a barline are NOT
rejected -/

/-- A measure with no notes whose right barline is `final`. -/
def emptyFinalMeasure : Measure := ⟨[], [], [], some "final"⟩

/-- A part-less source score containing only `emptyFinalMeasure`. -/
def emptyFinalScore : SourceScore := ⟨[], [emptyFinalMeasure]⟩

/-- Counterexample to C1: on an input whose only measure has no notes
and a `final` barline, the Segmenter hands `save_carol` (and hence
`musicxml_to_truth`) a Composition whose flattened note list is empty —
compositions closed by a final/double barline are not checked for
notes. -/
theorem empty_composition_reaches_synth :
    segmentCarols [emptyFinalScore] = [(1, [emptyFinalMeasure])] ∧
    flatNotes [emptyFinalMeasure] = [] ∧
    split_and_convert [emptyFinalScore] "out" =
      [save_carol [emptyFinalMeasure] 1 "out"] :=
  ⟨rfl, rfl, rfl⟩

/-- C1 as amended: the Segmenter's note-count check guards only the
residual accumulator left at end of input; a Composition closed by a
`final` or `double` barline is handed to the synthesis stage
unconditionally, whether or not it contains a note. -/
theorem only_residual_rejected (st : SegState) (m : Measure)
    (scores : List SourceScore) (hf : isFinalBarline m = true)
    (hr : flatNotes (finalSegState scores).current_carol = []) :
    (stepMeasure st m).carols =
      st.carols ++ [(st.carol_count, st.current_carol ++ [m])] ∧
    segmentCarols scores = (finalSegState scores).carols := by
  constructor
  · simp [stepMeasure, hf]
  · unfold segmentCarols
    rw [if_neg]
    simp [hr]

/-- Witness for the amended C1: the barline-closed empty composition is
emitted, and an all-empty residual is dropped. -/
theorem only_residual_rejected_witness :
    (stepMeasure initSegState emptyFinalMeasure).carols =
      [(1, [emptyFinalMeasure])] ∧
    segmentCarols [SourceScore.mk [] [Measure.mk [] [] [] none]] = [] := by
  have h := only_residual_rejected initSegState emptyFinalMeasure
    [SourceScore.mk [] [Measure.mk [] [] [] none]] rfl rfl
  exact ⟨h.1, h.2⟩

/-! ### C8: strictly sequential zero-padded numbering -/

/-- The numbering invariant of the Segmenter state: emitted carols carry
the counts `1, 2, ...` in order, and the running count is one past the
last emitted one. -/
def NumberingInv (st : SegState) : Prop :=
  st.carols.map Prod.fst = List.range' 1 st.carols.length ∧
  st.carol_count = st.carols.length + 1

lemma numberingInv_append (cs : List (Nat × Composition)) (c : Composition)
    (h1 : cs.map Prod.fst = List.range' 1 cs.length) :
    (cs ++ [(cs.length + 1, c)]).map Prod.fst =
      List.range' 1 (cs ++ [(cs.length + 1, c)]).length := by
  rw [List.map_append, h1, List.length_append]
  simp only [List.map_cons, List.map_nil, List.length_cons, List.length_nil]
  rw [List.range'_concat]
  congr 2
  omega

lemma numberingInv_step (st : SegState) (m : Measure) (h : NumberingInv st) :
    NumberingInv (stepMeasure st m) := by
  obtain ⟨h1, h2⟩ := h
  unfold NumberingInv stepMeasure
  by_cases hf : isFinalBarline m
  · simp only [hf, if_true]
    rw [h2]
    refine ⟨numberingInv_append _ _ h1, ?_⟩
    simp
  · simpa [hf] using ⟨h1, h2⟩

lemma numberingInv_foldl (ms : List Measure) (st : SegState)
    (h : NumberingInv st) : NumberingInv (ms.foldl stepMeasure st) := by
  induction ms generalizing st with
  | nil => exact h
  | cons m ms ih => exact ih _ (numberingInv_step st m h)

lemma numberingInv_foldl_parts (ps : List (List Measure)) (st : SegState)
    (h : NumberingInv st) : NumberingInv (ps.foldl stepPart st) := by
  induction ps generalizing st with
  | nil => exact h
  | cons p ps ih => exact ih _ (numberingInv_foldl p st h)

lemma numberingInv_foldl_scores (ss : List SourceScore) (st : SegState)
    (h : NumberingInv st) : NumberingInv (ss.foldl stepScore st) := by
  induction ss generalizing st with
  | nil => exact h
  | cons s ss ih => exact ih _ (numberingInv_foldl_parts _ st h)

lemma numberingInv_final (scores : List SourceScore) :
    NumberingInv (finalSegState scores) :=
  numberingInv_foldl_scores scores initSegState ⟨rfl, rfl⟩

/-- C8: the carols handed to `save_carol` carry the counts `1, 2, ...` in
emission order (so the k-th emitted Composition is numbered k,
independent of the source filenames), the two files of the k-th carol
are named `carol_{k}.musicxml` and `carol_{k}.truth.json` under the
output directory, and the number is zero-padded to a minimum width of
3. -/
theorem carol_numbering (scores : List SourceScore) (dir : String) :
    (segmentCarols scores).map Prod.fst =
      List.range' 1 (segmentCarols scores).length ∧
    (split_and_convert scores dir).map SavedCarol.xml_path =
      (segmentCarols scores).map
        (fun kc => dir ++ "/" ++ ("carol_" ++ zeroPad3 kc.1) ++ ".musicxml") ∧
    (split_and_convert scores dir).map SavedCarol.truth_path =
      (segmentCarols scores).map
        (fun kc => dir ++ "/" ++ ("carol_" ++ zeroPad3 kc.1) ++ ".truth.json") ∧
    ∀ k : Nat, (zeroPad3 k).length = max (toString k).length 3 := by
  obtain ⟨h1, h2⟩ := numberingInv_final scores
  refine ⟨?_, ?_, ?_, ?_⟩
  · unfold segmentCarols
    by_cases hres :
        0 < (flatNotes (finalSegState scores).current_carol).length
    · rw [if_pos hres, h2]
      exact numberingInv_append _ _ h1
    · rw [if_neg hres]
      exact h1
  · rw [split_and_convert, List.map_map]
    rfl
  · rw [split_and_convert, List.map_map]
    rfl
  · intro k
    unfold zeroPad3
    by_cases h : (toString k).length < 3
    · rw [if_pos h, String.length_append]
      have hmk : (String.mk (List.replicate (3 - (toString k).length) '0')).length
          = 3 - (toString k).length := by
        show (List.replicate (3 - (toString k).length) '0').length = _
        exact List.length_replicate _ _
      rw [hmk]
      omega
    · rw [if_neg h]
      omega

/-! ### C9: parts are concatenated whole, never interleaved -/

lemma carols_append_of_foldl (ms : List Measure) (st : SegState) :
    ∃ t, (ms.foldl stepMeasure st).carols = st.carols ++ t := by
  induction ms generalizing st with
  | nil => exact ⟨[], by simp⟩
  | cons m ms ih =>
      obtain ⟨t, ht⟩ := ih (stepMeasure st m)
      rw [List.foldl_cons, ht]
      unfold stepMeasure
      by_cases hf : isFinalBarline m
      · exact ⟨[(st.carol_count, st.current_carol ++ [m])] ++ t,
          by simp [hf]⟩
      · exact ⟨t, by simp [hf]⟩

lemma carols_append_of_foldl_parts (ps : List (List Measure)) (st : SegState) :
    ∃ t, (ps.foldl stepPart st).carols = st.carols ++ t := by
  induction ps generalizing st with
  | nil => exact ⟨[], by simp⟩
  | cons p ps ih =>
      obtain ⟨t, ht⟩ := ih (stepPart st p)
      obtain ⟨u, hu⟩ := carols_append_of_foldl p st
      rw [List.foldl_cons, ht]
      exact ⟨u ++ t, by rw [show stepPart st p = p.foldl stepMeasure st from rfl,
        hu, List.append_assoc]⟩

lemma carols_src (ms : List Measure) (st : SegState) :
    (∀ c ∈ (ms.foldl stepMeasure st).carols,
        c ∈ st.carols ∨ ∀ x ∈ c.2, x ∈ st.current_carol ++ ms) ∧
    ∀ x ∈ (ms.foldl stepMeasure st).current_carol,
        x ∈ st.current_carol ++ ms := by
  induction ms generalizing st with
  | nil =>
      exact ⟨fun c hc => Or.inl (by simpa using hc), fun x hx => by simpa using hx⟩
  | cons m ms ih =>
      have ih' := ih (stepMeasure st m)
      rw [List.foldl_cons]
      constructor
      · intro c hc
        rcases ih'.1 c hc with h | h
        · by_cases hf : isFinalBarline m
          · rw [show (stepMeasure st m).carols =
                st.carols ++ [(st.carol_count, st.current_carol ++ [m])]
                from by simp [stepMeasure, hf]] at h
            rcases List.mem_append.mp h with h | h
            · exact Or.inl h
            · right
              intro x hx
              rw [List.mem_singleton.mp h] at hx
              simp only [List.mem_append, List.mem_singleton, List.mem_cons] at hx ⊢
              tauto
          · exact Or.inl (by rwa [show (stepMeasure st m).carols = st.carols
              from by simp [stepMeasure, hf]] at h)
        · right
          intro x hx
          have hx' := h x hx
          by_cases hf : isFinalBarline m
          · rw [show (stepMeasure st m).current_carol = [] from
              by simp [stepMeasure, hf]] at hx'
            simp only [List.nil_append] at hx'
            simp only [List.mem_append, List.mem_cons]
            tauto
          · rw [show (stepMeasure st m).current_carol = st.current_carol ++ [m]
              from by simp [stepMeasure, hf]] at hx'
            simp only [List.mem_append, List.mem_singleton, List.mem_cons] at hx' ⊢
            tauto
      · intro x hx
        have hx' := ih'.2 x hx
        by_cases hf : isFinalBarline m
        · rw [show (stepMeasure st m).current_carol = [] from
            by simp [stepMeasure, hf]] at hx'
          simp only [List.nil_append] at hx'
          simp only [List.mem_append, List.mem_cons]
          tauto
        · rw [show (stepMeasure st m).current_carol = st.current_carol ++ [m]
            from by simp [stepMeasure, hf]] at hx'
          simp only [List.mem_append, List.mem_singleton, List.mem_cons] at hx' ⊢
          tauto

/-- C9: for a multi-part score the Segmenter consumes the concatenation
of the parts' measure lists, whole part after whole part (never
interleaved by measure position); the carols finalized while the first
part is consumed are a stable prefix of the final carol list, and each
of them draws its measures only from the accumulator as it stood and the
first part — none from later parts. -/
theorem parts_processed_in_order (st : SegState) (s : SourceScore)
    (p1 : List Measure) (rest : List (List Measure)) (h : s.parts = p1 :: rest) :
    stepScore st s = ((p1 :: rest).flatten).foldl stepMeasure st ∧
    (stepScore st s).carols.take (stepPart st p1).carols.length =
      (stepPart st p1).carols ∧
    ∀ c ∈ (stepPart st p1).carols,
      c ∈ st.carols ∨ ∀ x ∈ c.2, x ∈ st.current_carol ++ p1 := by
  have hep : effectiveParts s = p1 :: rest := by simp [effectiveParts, h]
  refine ⟨?_, ?_, ?_⟩
  · show (effectiveParts s).foldl stepPart st = _
    rw [hep]
    exact (List.foldl_flatten stepMeasure st (p1 :: rest)).symm
  · have hsc : stepScore st s = rest.foldl stepPart (stepPart st p1) := by
      show (effectiveParts s).foldl stepPart st = _
      rw [hep, List.foldl_cons]
    obtain ⟨t, ht⟩ := carols_append_of_foldl_parts rest (stepPart st p1)
    rw [hsc, ht, List.take_left]
  · exact (carols_src p1 st).1

/-- Witness for C9: a two-part score whose first part ends in a `final`
barline; the carol closed there contains only first-part measures. -/
theorem parts_processed_in_order_witness :
    stepScore initSegState
        (SourceScore.mk [[Measure.mk [⟨0, 1, .note 60⟩] [] [] (some "final")],
          [Measure.mk [⟨0, 1, .note 62⟩] [] [] none]] []) =
      ([[Measure.mk [⟨0, 1, .note 60⟩] [] [] (some "final")],
        [Measure.mk [⟨0, 1, .note 62⟩] [] [] none]].flatten).foldl
        stepMeasure initSegState ∧
    ((1, [Measure.mk [⟨0, 1, .note 60⟩] [] [] (some "final")]) ∈
        initSegState.carols ∨
      ∀ x ∈ [Measure.mk [⟨0, 1, .note 60⟩] [] [] (some "final")],
        x ∈ initSegState.current_carol ++
          [Measure.mk [⟨0, 1, .note 60⟩] [] [] (some "final")]) := by
  have h := parts_processed_in_order initSegState
    (SourceScore.mk [[Measure.mk [⟨0, 1, .note 60⟩] [] [] (some "final")],
      [Measure.mk [⟨0, 1, .note 62⟩] [] [] none]] [])
    [Measure.mk [⟨0, 1, .note 60⟩] [] [] (some "final")]
    [[Measure.mk [⟨0, 1, .note 62⟩] [] [] none]] rfl
  refine ⟨h.1, h.2.2 (1, [Measure.mk [⟨0, 1, .note 60⟩] [] [] (some "final")]) ?_⟩
  rw [show (stepPart initSegState
      [Measure.mk [⟨0, 1, .note 60⟩] [] [] (some "final")]).carols =
    [(1, [Measure.mk [⟨0, 1, .note 60⟩] [] [] (some "final")])] from rfl]
  exact List.mem_singleton.mpr rfl

/-! ### C3: events sorted by timestamp only, with a stable sort -/

lemma timedLE_trans : ∀ a b c : TimedEvent,
    decide (a.1 ≤ b.1) = true → decide (b.1 ≤ c.1) = true →
    decide (a.1 ≤ c.1) = true := by
  intro a b c hab hbc
  simp only [decide_eq_true_eq] at *
  exact le_trans hab hbc

lemma timedLE_total : ∀ a b : TimedEvent,
    (decide (a.1 ≤ b.1) || decide (b.1 ≤ a.1)) = true := by
  intro a b
  simp only [Bool.or_eq_true, decide_eq_true_eq]
  exact le_total a.1 b.1

lemma truth_events_eq (score : Composition) (bpm0 : ℚ) (sr : Nat) :
    (musicxml_to_truth score bpm0 sr).events = sortEvents (rawEvents score) :=
  rfl

/-- C3: a Truth Record's event sequence is the per-note/chord emission
list sorted stably by timestamp alone: timestamps are non-decreasing,
the sequence is a permutation of the emitted events, and for every
timestamp the events carrying it appear exactly in emission order (so
ties are never reordered by pitch or event kind). -/
theorem events_sorted_stable (score : Composition) (bpm0 : ℚ) (sr : Nat) :
    ((musicxml_to_truth score bpm0 sr).events.Pairwise
      fun a b => a.1 ≤ b.1) ∧
    (musicxml_to_truth score bpm0 sr).events.Perm (rawEvents score) ∧
    ∀ t : ℚ,
      (musicxml_to_truth score bpm0 sr).events.filter
          (fun e => decide (e.1 = t)) =
        (rawEvents score).filter fun e => decide (e.1 = t) := by
  rw [truth_events_eq]
  refine ⟨?_, ?_, ?_⟩
  · have h := List.sorted_mergeSort timedLE_trans timedLE_total
      (rawEvents score)
    exact h.imp fun hab => by simpa using hab
  · exact List.mergeSort_perm _ _
  · intro t
    have hpair : ((rawEvents score).filter fun e => decide (e.1 = t)).Pairwise
        fun a b : TimedEvent => decide (a.1 ≤ b.1) = true := by
      apply List.pairwise_of_forall_mem_list
      intro a ha b hb
      have ha' := List.of_mem_filter ha
      have hb' := List.of_mem_filter hb
      simp only [decide_eq_true_eq] at ha' hb' ⊢
      rw [ha', hb']
    have hsub : List.Sublist ((rawEvents score).filter fun e => decide (e.1 = t))
        (sortEvents (rawEvents score)) :=
      List.sublist_mergeSort timedLE_trans timedLE_total hpair
        (List.filter_sublist _)
    have hsub2 : List.Sublist
        ((rawEvents score).filter fun e => decide (e.1 = t))
        ((sortEvents (rawEvents score)).filter fun e => decide (e.1 = t)) := by
      have hmono := List.Sublist.filter (fun e : TimedEvent => decide (e.1 = t)) hsub
      have hself : List.filter (fun e : TimedEvent => decide (e.1 = t))
          (List.filter (fun e : TimedEvent => decide (e.1 = t)) (rawEvents score)) =
          List.filter (fun e : TimedEvent => decide (e.1 = t)) (rawEvents score) := by
        apply List.filter_eq_self.mpr
        intro a ha
        exact (List.mem_filter.mp ha).2
      rwa [hself] at hmono
    have hlen : ((sortEvents (rawEvents score)).filter
          fun e => decide (e.1 = t)).length =
        ((rawEvents score).filter fun e => decide (e.1 = t)).length :=
      ((List.mergeSort_perm _ _).filter _).length_eq
    exact (hsub2.eq_of_length hlen.symm).symm

end Harmonium
